import Mathlib

/-!
Verification of the WicketWorm prediction engine against its design notes.

The embedding covers:
* the shared data model (`GameState`, `ModelData`, `OVER_OFFSET`,
  `calculateXOver`) from `packages/shared-types`;
* the browser inference path (`loadModel`, `extractFeatures`, `standardize`,
  `softmax`, `predict`) from `packages/ui/src/inference/model.ts`;
* an `Option ℝ`-valued variant of the arithmetic in which `none` stands for a
  non-finite JavaScript number (NaN or ±Infinity), used to reason about the
  zero-division guards and about out-of-range array indexing;
* reference definitions transcribed from the design notes (naive softmax,
  standardized linear logits) to compare with the implementation;
* the Hybrid Selector trigger predicate, modelled from the design notes since
  the Python training package is not part of the TypeScript sources.

JavaScript numbers are modelled as real numbers; `Real.exp` stands for
`Math.exp`.  List indexing `xs[i]` is rendered as `List.getD xs i 0`; the
default is only reachable out of range, where JavaScript would yield
`undefined` and hence NaN — theorems that depend on in-range behaviour carry
the corresponding length hypotheses, and the `Option`-valued variants track
the out-of-range/NaN cases explicitly.
-/

namespace WicketWorm

/-- `GameState` from `packages/shared-types` (`src/unnamed/part_008`):
the snapshot of a Test match consumed by inference.  The TypeScript field
`innings : 1 | 2 | 3 | 4` is modelled as `ℕ`; `target?: number` as
`Option ℝ`. -/
structure GameState where
  matchId : String
  innings : ℕ
  runsFor : ℝ
  wicketsDown : ℝ
  ballsBowled : ℝ
  lead : ℝ
  target : Option ℝ
  matchOversLimit : ℝ
  ballsRemaining : ℝ
  completedInnings : ℝ
  isChasing : Bool

/-- `ModelData` from `packages/shared-types`: the serialized linear model
artifact (coefficient matrix, intercepts, standardization statistics and the
feature-name list fixing the order). -/
structure ModelData where
  coefficients : List (List ℝ)
  intercepts : List ℝ
  featureMeans : List ℝ
  featureStds : List ℝ
  featureNames : List String

/-- `OVER_OFFSET` from `packages/shared-types`: x-axis offset between
innings. -/
def OVER_OFFSET : ℝ := 500

/-- `calculateXOver` from `packages/shared-types`:
`(innings - 1) * OVER_OFFSET + over`. -/
noncomputable def calculateXOver (innings : ℕ) (over : ℝ) : ℝ :=
  ((innings : ℝ) - 1) * OVER_OFFSET + over

/-- `loadModel` from `packages/ui/src/inference/model.ts`.  The function
fetches a URL and, when the HTTP response is ok, returns the parsed JSON body
as a `ModelData` unchanged; the only failure branch is the `response.ok`
check.  The fetch is modelled by its two observable inputs: whether the
response was ok, and the parsed body. -/
def loadModel (responseOk : Bool) (parsed : ModelData) : Except String ModelData :=
  if responseOk then Except.ok parsed else Except.error "Failed to load model"

/-- `extractFeatures` from `packages/ui/src/inference/model.ts`.  The
JavaScript truthiness test `state.target` (a `number | undefined`) holds
exactly when the target is present and nonzero, which the `match` renders. -/
noncomputable def extractFeatures (state : GameState) : List ℝ :=
  let runRate : ℝ :=
    if state.ballsBowled > 0 then state.runsFor / state.ballsBowled * 6 else 0
  let runsPerWicket : ℝ := state.runsFor / (state.wicketsDown + 1)
  let requiredRunRate : ℝ :=
    match state.target with
    | none => 0
    | some t =>
        if state.isChasing ∧ t ≠ 0 ∧ state.ballsRemaining > 0 then
          (t - state.runsFor) / state.ballsRemaining * 6
        else 0
  [(state.innings : ℝ), state.wicketsDown, runRate, state.lead,
   state.ballsRemaining, runsPerWicket,
   (if state.isChasing then (1 : ℝ) else 0), requiredRunRate]

/-- `standardize` from `packages/ui/src/inference/model.ts`:
`features.map((f, i) => (f - means[i]) / stds[i])`. -/
noncomputable def standardize (features means stds : List ℝ) : List ℝ :=
  features.mapIdx fun i f => (f - means.getD i 0) / stds.getD i 0

/-- Variadic `Math.max` over a list; the empty-list case (where JavaScript
yields `-Infinity`) is given an arbitrary value and is never reached, since
`softmax` is only applied to the three class logits. -/
noncomputable def listMax : List ℝ → ℝ
  | [] => 0
  | l :: ls => ls.foldl max l

/-- `softmax` from `packages/ui/src/inference/model.ts`: subtract the maximum
logit, exponentiate, normalize by the sum (`reduce((a, b) => a + b, 0)` is
rendered as `List.sum`). -/
noncomputable def softmax (logits : List ℝ) : List ℝ :=
  let maxLogit := listMax logits
  let exps := logits.map fun l => Real.exp (l - maxLogit)
  let sumExps := exps.sum
  exps.map fun e => e / sumExps

/-- The inner `reduce` of `predict`:
`weights.reduce((sum, w, j) => sum + w * standardized[j], 0)`, the dot product
of one coefficient row with the standardized feature vector. -/
noncomputable def dotProduct (weights standardized : List ℝ) : ℝ :=
  (weights.mapIdx fun j w => w * standardized.getD j 0).sum

/-- `predict` from `packages/ui/src/inference/model.ts`: extract features,
standardize, form logits `W·x + b` (via `dotProduct`), apply softmax, and
read classes 0, 1, 2 as (pWin, pDraw, pLoss). -/
noncomputable def predict (model : ModelData) (state : GameState) : ℝ × ℝ × ℝ :=
  let features := extractFeatures state
  let standardized := standardize features model.featureMeans model.featureStds
  let logits := model.coefficients.mapIdx fun i weights =>
    dotProduct weights standardized + model.intercepts.getD i 0
  let probs := softmax logits
  (probs.getD 0 0, probs.getD 1 0, probs.getD 2 0)

/-- JavaScript division tracked for finiteness: `none` stands for the
non-finite result (`±Infinity` or NaN) produced when the denominator is 0. -/
noncomputable def jsDiv (a b : ℝ) : Option ℝ :=
  if b = 0 then none else some (a / b)

/-- `extractFeatures` with every division routed through `jsDiv`, so that a
feature entry is `none` exactly when the JavaScript computation would produce
a non-finite number. -/
noncomputable def extractFeaturesOpt (state : GameState) : List (Option ℝ) :=
  let runRate : Option ℝ :=
    if state.ballsBowled > 0 then
      (jsDiv state.runsFor state.ballsBowled).map fun r => r * 6
    else some 0
  let runsPerWicket : Option ℝ := jsDiv state.runsFor (state.wicketsDown + 1)
  let requiredRunRate : Option ℝ :=
    match state.target with
    | none => some 0
    | some t =>
        if state.isChasing ∧ t ≠ 0 ∧ state.ballsRemaining > 0 then
          (jsDiv (t - state.runsFor) state.ballsRemaining).map fun r => r * 6
        else some 0
  [some (state.innings : ℝ), some state.wicketsDown, runRate, some state.lead,
   some state.ballsRemaining, runsPerWicket,
   some (if state.isChasing then (1 : ℝ) else 0), requiredRunRate]

/-- `standardize` with JavaScript indexing and division made explicit: an
entry is `none` when the means or stds array is too short (JavaScript
`undefined` arithmetic, hence NaN) or the std is 0. -/
noncomputable def standardizeOpt (features means stds : List ℝ) : List (Option ℝ) :=
  features.mapIdx fun i f =>
    match means.get? i, stds.get? i with
    | some m, some s => jsDiv (f - m) s
    | _, _ => none

/-- Naive softmax, as the design notes define the classifier's output:
`exp(logit[k]) / Σ_j exp(logit[j])`. -/
noncomputable def softmaxNaive (logits : List ℝ) : List ℝ :=
  logits.map fun x => Real.exp x / (logits.map Real.exp).sum

/-- The design notes' standardizer: `z[i] = (x[i] - mean[i]) / scale[i]`. -/
noncomputable def standardizeSpec (x means scales : List ℝ) (i : ℕ) : ℝ :=
  (x.getD i 0 - means.getD i 0) / scales.getD i 0

/-- The design notes' linear classifier logit:
`logit[c] = intercept[c] + Σ_i coef[c][i] * z[i]`, the sum ranging over the
feature indices. -/
noncomputable def logitSpec (model : ModelData) (x : List ℝ) (c : ℕ) : ℝ :=
  model.intercepts.getD c 0 +
    ∑ i in Finset.range x.length,
      (model.coefficients.getD c []).getD i 0 *
        standardizeSpec x model.featureMeans model.featureStds i

/-- Modelled from the spec: the Hybrid Selector trigger of
`packages/model-train/src/generate_ashes_series.py` (the Python training
package is not among the TypeScript sources).  Per the design notes, the
Monte Carlo simulator is used exactly when "innings = 4 AND (wickets
remaining ≤ 3 OR runs required ≤ 80) AND overs remaining > 30". -/
def useMonteCarlo (innings wicketsRemaining : ℕ) (runsRequired oversRemaining : ℚ) : Bool :=
  innings == 4 && (wicketsRemaining ≤ 3 || runsRequired ≤ 80) && oversRemaining > 30

/-- Modelled from the spec: the Hybrid Selector routes each state either to
the simulator's output or to the classifier's output according to the
trigger. -/
def hybridSelect {α : Type} (innings wicketsRemaining : ℕ)
    (runsRequired oversRemaining : ℚ) (classifierOut simulatorOut : α) : α :=
  if useMonteCarlo innings wicketsRemaining runsRequired oversRemaining then
    simulatorOut
  else classifierOut

/-- A mid-match state used to instantiate theorems: England 213/8 after 67
overs in their first innings, not chasing. -/
noncomputable def innings2State : GameState :=
  { matchId := "adelaide-2025"
    innings := 2
    runsFor := 213
    wicketsDown := 8
    ballsBowled := 402
    lead := -158
    target := none
    matchOversLimit := 450
    ballsRemaining := 300
    completedInnings := 1
    isChasing := false }

/-- A fourth-innings chase state used to instantiate theorems. -/
noncomputable def chaseState : GameState :=
  { matchId := "brisbane-2025"
    innings := 4
    runsFor := 30
    wicketsDown := 1
    ballsBowled := 60
    lead := -35
    target := some 65
    matchOversLimit := 450
    ballsRemaining := 660
    completedInnings := 3
    isChasing := true }

/-- An identity-like model artifact with 3 classes and 8 features, used to
instantiate theorems. -/
noncomputable def sampleModel : ModelData :=
  { coefficients :=
      [[1, 0, 0, 0, 0, 0, 0, 0], [0, 1, 0, 0, 0, 0, 0, 0], [0, 0, 1, 0, 0, 0, 0, 0]]
    intercepts := [0, 0, 0]
    featureMeans := [0, 0, 0, 0, 0, 0, 0, 0]
    featureStds := [1, 1, 1, 1, 1, 1, 1, 1]
    featureNames :=
      ["innings", "wicketsDown", "runRate", "lead",
       "ballsRemaining", "runsPerWicket", "isChasing", "requiredRunRate"] }

/-- A malformed model artifact: 8 feature names but only 3 means and 3 stds,
and a single coefficient row of length 1. -/
noncomputable def malformedModel : ModelData :=
  { coefficients := [[1]]
    intercepts := [0]
    featureMeans := [0, 0, 0]
    featureStds := [1, 1, 1]
    featureNames :=
      ["innings", "wicketsDown", "runRate", "lead",
       "ballsRemaining", "runsPerWicket", "isChasing", "requiredRunRate"] }

theorem getD_mapIdx {α β : Type} (l : List α) (f : ℕ → α → β) (i : ℕ)
    (h : i < l.length) (d : β) (d' : α) :
    (l.mapIdx f).getD i d = f i (l.getD i d') := by
  rw [List.getD_eq_getElem _ _ (by simp [h]), List.getD_eq_getElem _ _ h]
  simp

theorem mapIdx_sum_eq (f : ℕ → ℝ → ℝ) (l : List ℝ) :
    (l.mapIdx f).sum = ∑ i in Finset.range l.length, f i (l.getD i 0) := by
  rw [List.mapIdx_eq_ofFn, List.sum_ofFn]
  rw [show (fun i : Fin l.length => f i (l.get i)) =
      fun i : Fin l.length => f i (l.getD i 0) from ?_]
  · exact Fin.sum_univ_eq_sum_range (fun j => f j (l.getD j 0)) l.length
  · funext i
    rw [List.getD_eq_getElem _ _ i.isLt, List.get_eq_getElem]

theorem mapIdx_triple {α β : Type} (f : ℕ → α → β) (a b c : α) :
    List.mapIdx f [a, b, c] = [f 0 a, f 1 b, f 2 c] := by
  rw [List.mapIdx_eq_ofFn]
  simp [List.ofFn_succ]

theorem extractFeatures_length (state : GameState) :
    (extractFeatures state).length = 8 := by
  simp [extractFeatures]

/-- C5: when `isChasing` is false, the chase-specific feature (the required
run rate, the last of the 8 entries) is exactly 0. -/
theorem requiredRunRate_zero_when_not_chasing (state : GameState)
    (h : state.isChasing = false) :
    (extractFeatures state).getD 7 0 = 0 ∧ (extractFeatures state).length = 8 := by
  refine ⟨?_, extractFeatures_length state⟩
  cases htarget : state.target with
  | none => simp [extractFeatures, htarget]
  | some t => simp [extractFeatures, htarget, h]

theorem requiredRunRate_zero_when_not_chasing_witness :
    (extractFeatures innings2State).getD 7 0 = 0 ∧
      (extractFeatures innings2State).length = 8 :=
  requiredRunRate_zero_when_not_chasing innings2State rfl

/-- C10: the required-run-rate feature (entry 7) is 0 whenever the target is
absent or 0 or no balls remain, even while chasing; it can be nonzero only
when chasing with a present nonzero target and balls remaining, and in that
case it equals `((target - runsFor) / ballsRemaining) * 6`. -/
theorem requiredRunRate_cases (state : GameState) :
    ((state.target = none ∨ state.target = some 0 ∨ state.ballsRemaining ≤ 0) →
      (extractFeatures state).getD 7 0 = 0) ∧
    (0 < (extractFeatures state).getD 7 0 →
      state.isChasing = true ∧
        ∃ t, state.target = some t ∧ t ≠ 0 ∧ 0 < state.ballsRemaining) ∧
    (∀ t, state.isChasing = true → state.target = some t → t ≠ 0 →
      0 < state.ballsRemaining →
      (extractFeatures state).getD 7 0 = (t - state.runsFor) / state.ballsRemaining * 6) := by
  refine ⟨?_, ?_, ?_⟩
  · rintro (h | h | h)
    · simp [extractFeatures, h]
    · simp [extractFeatures, h]
    · cases htarget : state.target with
      | none => simp [extractFeatures, htarget]
      | some t =>
          have : ¬ (state.isChasing ∧ t ≠ 0 ∧ state.ballsRemaining > 0) := by
            rintro ⟨-, -, hpos⟩
            exact absurd hpos (not_lt.mpr h)
          simp only [extractFeatures, htarget]
          simp [this]
  · intro hpos
    cases htarget : state.target with
    | none => simp [extractFeatures, htarget] at hpos
    | some t =>
        by_cases hcond : state.isChasing ∧ t ≠ 0 ∧ state.ballsRemaining > 0
        · exact ⟨hcond.1, t, rfl, hcond.2.1, hcond.2.2⟩
        · simp only [extractFeatures, htarget] at hpos
          simp [hcond] at hpos
  · intro t hchase htarget ht hballs
    have hcond : state.isChasing ∧ t ≠ 0 ∧ state.ballsRemaining > 0 :=
      ⟨by simp [hchase], ht, hballs⟩
    simp only [extractFeatures, htarget]
    simp [hcond]

theorem requiredRunRate_cases_witness :
    (extractFeatures chaseState).getD 7 0 = (65 - 30) / 660 * 6 :=
  (requiredRunRate_cases chaseState).2.2 65 rfl rfl (by norm_num)
    (by norm_num [chaseState])

/-- C8: `calculateXOver innings over = (innings - 1) * OVER_OFFSET + over`
with `OVER_OFFSET = 500`; it is strictly increasing in `(innings, over)`
ordered lexicographically over the physical over range `[0, 450]`, and within
that range the x-axis intervals of distinct innings never meet. -/
theorem calculateXOver_spec :
    OVER_OFFSET = 500 ∧
    (∀ (i : ℕ) (o : ℝ), calculateXOver i o = ((i : ℝ) - 1) * 500 + o) ∧
    (∀ (i₁ i₂ : ℕ) (o₁ o₂ : ℝ), 0 ≤ o₁ → o₁ ≤ 450 → 0 ≤ o₂ → o₂ ≤ 450 →
      (i₁ < i₂ ∨ (i₁ = i₂ ∧ o₁ < o₂)) →
      calculateXOver i₁ o₁ < calculateXOver i₂ o₂) ∧
    (∀ (i₁ i₂ : ℕ) (o₁ o₂ : ℝ), 1 ≤ i₁ → i₁ ≤ 4 → 1 ≤ i₂ → i₂ ≤ 4 →
      0 ≤ o₁ → o₁ ≤ 450 → 0 ≤ o₂ → o₂ ≤ 450 → i₁ ≠ i₂ →
      calculateXOver i₁ o₁ ≠ calculateXOver i₂ o₂) := by
  have hform : ∀ (i : ℕ) (o : ℝ), calculateXOver i o = ((i : ℝ) - 1) * 500 + o := by
    intro i o
    simp [calculateXOver, OVER_OFFSET]
  have hlex : ∀ (i₁ i₂ : ℕ) (o₁ o₂ : ℝ), 0 ≤ o₁ → o₁ ≤ 450 → 0 ≤ o₂ → o₂ ≤ 450 →
      (i₁ < i₂ ∨ (i₁ = i₂ ∧ o₁ < o₂)) →
      calculateXOver i₁ o₁ < calculateXOver i₂ o₂ := by
    rintro i₁ i₂ o₁ o₂ h₁ h₂ h₃ h₄ (hlt | ⟨rfl, hlt⟩)
    · rw [hform, hform]
      have hcast : (i₁ : ℝ) + 1 ≤ (i₂ : ℝ) := by exact_mod_cast hlt
      nlinarith
    · rw [hform, hform]
      linarith
  refine ⟨rfl, hform, hlex, ?_⟩
  intro i₁ i₂ o₁ o₂ _ _ _ _ h₁ h₂ h₃ h₄ hne
  rcases lt_or_gt_of_ne hne with hlt | hlt
  · exact ne_of_lt (hlex i₁ i₂ o₁ o₂ h₁ h₂ h₃ h₄ (Or.inl hlt))
  · exact (ne_of_lt (hlex i₂ i₁ o₂ o₁ h₃ h₄ h₁ h₂ (Or.inl hlt))).symm

theorem calculateXOver_spec_witness :
    calculateXOver 1 450 < calculateXOver 2 0 ∧ calculateXOver 3 10 ≠ calculateXOver 4 10 :=
  ⟨calculateXOver_spec.2.2.1 1 2 450 0 (by norm_num) (by norm_num) (by norm_num)
      (by norm_num) (Or.inl (by norm_num)),
   calculateXOver_spec.2.2.2 3 4 10 10 (by norm_num) (by norm_num) (by norm_num)
      (by norm_num) (by norm_num) (by norm_num) (by norm_num) (by norm_num)
      (by norm_num)⟩

theorem sum_map_exp_pos (l : List ℝ) (h : l ≠ []) : 0 < (l.map Real.exp).sum := by
  cases l with
  | nil => exact absurd rfl h
  | cons a ls =>
      have hrest : 0 ≤ (ls.map Real.exp).sum := by
        apply List.sum_nonneg
        intro x hx
        obtain ⟨y, -, rfl⟩ := List.mem_map.mp hx
        exact (Real.exp_pos y).le
      simp only [List.map_cons, List.sum_cons]
      exact add_pos_of_pos_of_nonneg (Real.exp_pos a) hrest

theorem sum_map_exp_sub (l : List ℝ) (m : ℝ) :
    (l.map fun x => Real.exp (x - m)).sum = Real.exp (-m) * (l.map Real.exp).sum := by
  induction l with
  | nil => simp
  | cons a ls ih =>
      simp only [List.map_cons, List.sum_cons, ih]
      rw [show a - m = a + -m by ring, Real.exp_add]
      ring

theorem listMax_map_add (l : List ℝ) (a c : ℝ) :
    ((l.map fun x => x + c).foldl max (a + c)) = l.foldl max a + c := by
  induction l generalizing a with
  | nil => simp
  | cons b ls ih =>
      simp only [List.map_cons, List.foldl_cons]
      rw [max_add_add_right a b c, ih]

theorem softmax_eq_naive (l : List ℝ) (h : l ≠ []) : softmax l = softmaxNaive l := by
  have hT : 0 < (l.map Real.exp).sum := sum_map_exp_pos l h
  have hexp : Real.exp (-(listMax l)) ≠ 0 := Real.exp_ne_zero _
  simp only [softmax, softmaxNaive, List.map_map, sum_map_exp_sub]
  apply List.map_congr_left
  intro x _
  simp only [Function.comp]
  rw [show x - listMax l = x + -(listMax l) by ring, Real.exp_add,
    mul_comm (Real.exp x) (Real.exp (-(listMax l))),
    mul_div_mul_left _ _ hexp]

theorem softmax_shift (l : List ℝ) (c : ℝ) :
    softmax (l.map fun x => x + c) = softmax l := by
  cases l with
  | nil => simp [softmax]
  | cons a ls =>
      have hmax : listMax ((a :: ls).map fun x => x + c) = listMax (a :: ls) + c := by
        simp only [List.map_cons, listMax]
        exact listMax_map_add ls a c
      simp only [softmax, hmax, List.map_map]
      have harg : ((fun x => Real.exp (x - (listMax (a :: ls) + c))) ∘ fun x => x + c) =
          fun x => Real.exp (x - listMax (a :: ls)) := by
        funext x
        simp only [Function.comp]
        congr 1
        ring
      rw [harg]

/-- C9: the implemented softmax is shift-invariant — adding a constant to all
logits leaves the output unchanged — and the implemented max-subtracting
softmax agrees with the naive definition `exp(logit[k]) / Σ_j exp(logit[j])`
on every nonempty logits vector. -/
theorem softmax_shift_invariant_eq_naive :
    (∀ (l : List ℝ) (c : ℝ), l ≠ [] → softmax (l.map fun x => x + c) = softmax l) ∧
    (∀ l : List ℝ, l ≠ [] → softmax l = softmaxNaive l) :=
  ⟨fun l c _ => softmax_shift l c, softmax_eq_naive⟩

theorem softmax_shift_invariant_eq_naive_witness :
    softmax (List.map (fun x => x + 2) [(0 : ℝ), 1, 3]) = softmax [(0 : ℝ), 1, 3] ∧
      softmax [(0 : ℝ)] = softmaxNaive [(0 : ℝ)] :=
  ⟨softmax_shift_invariant_eq_naive.1 [0, 1, 3] 2 (by simp),
   softmax_shift_invariant_eq_naive.2 [0] (by simp)⟩

theorem softmax_triple (l₀ l₁ l₂ : ℝ) :
    softmax [l₀, l₁, l₂] =
      [Real.exp l₀ / (Real.exp l₀ + Real.exp l₁ + Real.exp l₂),
       Real.exp l₁ / (Real.exp l₀ + Real.exp l₁ + Real.exp l₂),
       Real.exp l₂ / (Real.exp l₀ + Real.exp l₁ + Real.exp l₂)] := by
  rw [softmax_eq_naive _ (by simp)]
  simp only [softmaxNaive, List.map_cons, List.map_nil, List.sum_cons, List.sum_nil,
    add_zero]
  norm_num [add_assoc]

theorem softmax_probs_triple (L₀ L₁ L₂ : ℝ) (p : ℝ × ℝ × ℝ)
    (hp : p = ((softmax [L₀, L₁, L₂]).getD 0 0, (softmax [L₀, L₁, L₂]).getD 1 0,
      (softmax [L₀, L₁, L₂]).getD 2 0)) :
    (0 ≤ p.1 ∧ p.1 ≤ 1) ∧ (0 ≤ p.2.1 ∧ p.2.1 ≤ 1) ∧ (0 ≤ p.2.2 ∧ p.2.2 ≤ 1) ∧
      p.1 + p.2.1 + p.2.2 = 1 := by
  subst hp
  rw [softmax_triple]
  simp only [List.getD_cons_zero, List.getD_cons_succ]
  have h₀ := Real.exp_pos L₀
  have h₁ := Real.exp_pos L₁
  have h₂ := Real.exp_pos L₂
  have hS : 0 < Real.exp L₀ + Real.exp L₁ + Real.exp L₂ := by linarith
  refine ⟨⟨?_, ?_⟩, ⟨?_, ?_⟩, ⟨?_, ?_⟩, ?_⟩
  · positivity
  · rw [div_le_one hS]; linarith
  · positivity
  · rw [div_le_one hS]; linarith
  · positivity
  · rw [div_le_one hS]; linarith
  · rw [div_add_div_same, div_add_div_same, div_self (ne_of_gt hS)]

/-- C2: for every model artifact with the 3-class coefficient matrix and
every game state (all quantities finite reals), the three probabilities
returned by `predict` are each in `[0, 1]` and sum to 1 exactly — in
particular within `1e-6` — and none is negative; in the real-number
semantics no NaN can arise, as the softmax denominator is strictly
positive. -/
theorem predict_probs_in_unit_and_sum_one (model : ModelData) (state : GameState)
    (hc : model.coefficients.length = 3) :
    (0 ≤ (predict model state).1 ∧ (predict model state).1 ≤ 1) ∧
    (0 ≤ (predict model state).2.1 ∧ (predict model state).2.1 ≤ 1) ∧
    (0 ≤ (predict model state).2.2 ∧ (predict model state).2.2 ≤ 1) ∧
    (predict model state).1 + (predict model state).2.1 + (predict model state).2.2 = 1 := by
  obtain ⟨w₀, w₁, w₂, hw⟩ := List.length_eq_three.mp hc
  exact softmax_probs_triple _ _ _ _ (by simp only [predict, hw, mapIdx_triple]; rfl)

theorem predict_probs_in_unit_and_sum_one_witness :
    (0 ≤ (predict sampleModel innings2State).1 ∧ (predict sampleModel innings2State).1 ≤ 1) ∧
    (0 ≤ (predict sampleModel innings2State).2.1 ∧
      (predict sampleModel innings2State).2.1 ≤ 1) ∧
    (0 ≤ (predict sampleModel innings2State).2.2 ∧
      (predict sampleModel innings2State).2.2 ≤ 1) ∧
    (predict sampleModel innings2State).1 + (predict sampleModel innings2State).2.1 +
      (predict sampleModel innings2State).2.2 = 1 :=
  predict_probs_in_unit_and_sum_one sampleModel innings2State rfl

theorem standardize_getD (features means stds : List ℝ) (i : ℕ)
    (h : i < features.length) :
    (standardize features means stds).getD i 0 = standardizeSpec features means stds i := by
  unfold standardize standardizeSpec
  rw [getD_mapIdx _ _ _ h 0 0]

theorem dotProduct_eq_sum (w s : List ℝ) :
    dotProduct w s = ∑ i in Finset.range w.length, w.getD i 0 * s.getD i 0 :=
  mapIdx_sum_eq _ w

/-- C1: for every model artifact of the claimed shape (3 coefficient rows,
each as long as the feature vector, and 3 intercepts) and every game state,
`predict` returns exactly the reference linear classifier of the design
notes: standardize each extracted feature, form
`logit[c] = intercept[c] + Σ_i coef[c][i] * z[i]`, and return the softmax of
the logits, classes 0, 1, 2 giving (pWin, pDraw, pLoss). -/
theorem predict_matches_reference (model : ModelData) (state : GameState)
    (hc : model.coefficients.length = 3)
    (hrow : ∀ w ∈ model.coefficients, w.length = (extractFeatures state).length)
    (hb : model.intercepts.length = 3) :
    predict model state =
      (Real.exp (logitSpec model (extractFeatures state) 0) /
          ∑ j in Finset.range 3, Real.exp (logitSpec model (extractFeatures state) j),
       Real.exp (logitSpec model (extractFeatures state) 1) /
          ∑ j in Finset.range 3, Real.exp (logitSpec model (extractFeatures state) j),
       Real.exp (logitSpec model (extractFeatures state) 2) /
          ∑ j in Finset.range 3, Real.exp (logitSpec model (extractFeatures state) j)) := by
  have hblen : 0 < model.intercepts.length := by rw [hb]; norm_num
  obtain ⟨w₀, w₁, w₂, hw⟩ := List.length_eq_three.mp hc
  set fs := extractFeatures state with hfs
  set sd := standardize fs model.featureMeans model.featureStds with hsd
  have hlogit : ∀ (c : ℕ) (w : List ℝ), model.coefficients.getD c [] = w →
      w.length = fs.length →
      logitSpec model fs c = dotProduct w sd + model.intercepts.getD c 0 := by
    intro c w hcw hlen
    have hsumeq : (∑ i in Finset.range fs.length,
        w.getD i 0 * standardizeSpec fs model.featureMeans model.featureStds i) =
          dotProduct w sd := by
      rw [dotProduct_eq_sum, hlen]
      refine Finset.sum_congr rfl fun i hi => ?_
      rw [hsd, standardize_getD fs _ _ i (Finset.mem_range.mp hi)]
    simp only [logitSpec, hcw, hsumeq, add_comm]
  have h₀ : logitSpec model fs 0 = dotProduct w₀ sd + model.intercepts.getD 0 0 :=
    hlogit 0 w₀ (by rw [hw]; simp) (hrow w₀ (by rw [hw]; simp))
  have h₁ : logitSpec model fs 1 = dotProduct w₁ sd + model.intercepts.getD 1 0 :=
    hlogit 1 w₁ (by rw [hw]; simp) (hrow w₁ (by rw [hw]; simp))
  have h₂ : logitSpec model fs 2 = dotProduct w₂ sd + model.intercepts.getD 2 0 :=
    hlogit 2 w₂ (by rw [hw]; simp) (hrow w₂ (by rw [hw]; simp))
  have hsum : ∑ j in Finset.range 3, Real.exp (logitSpec model fs j) =
      Real.exp (logitSpec model fs 0) + Real.exp (logitSpec model fs 1) +
        Real.exp (logitSpec model fs 2) := by
    rw [Finset.sum_range_succ, Finset.sum_range_succ, Finset.sum_range_one]
  simp only [predict, hw, mapIdx_triple, softmax_triple, List.getD_cons_zero,
    List.getD_cons_succ, ← hsd, ← hfs]
  rw [hsum, h₀, h₁, h₂]

theorem predict_matches_reference_witness :
    predict sampleModel chaseState =
      (Real.exp (logitSpec sampleModel (extractFeatures chaseState) 0) /
          ∑ j in Finset.range 3, Real.exp (logitSpec sampleModel (extractFeatures chaseState) j),
       Real.exp (logitSpec sampleModel (extractFeatures chaseState) 1) /
          ∑ j in Finset.range 3, Real.exp (logitSpec sampleModel (extractFeatures chaseState) j),
       Real.exp (logitSpec sampleModel (extractFeatures chaseState) 2) /
          ∑ j in Finset.range 3, Real.exp (logitSpec sampleModel (extractFeatures chaseState) j)) := by
  refine predict_matches_reference sampleModel chaseState rfl ?_ rfl
  intro w hw
  rw [extractFeatures_length]
  simp only [sampleModel, List.mem_cons, List.not_mem_nil, or_false] at hw
  rcases hw with rfl | rfl | rfl <;> rfl

/-- C4: for every game state whose numeric fields are finite reals with
`wicketsDown ≥ 0`, every entry of the extracted feature vector is finite: the
`Option`-valued evaluation (where `none` marks a non-finite JavaScript
result) agrees with `extractFeatures` mapped through `some`, so no division
by zero reaches the classifier; and the run-rate feature is exactly 0 when
`ballsBowled = 0`. -/
theorem extractFeatures_total_finite (state : GameState)
    (h : 0 ≤ state.wicketsDown) :
    extractFeaturesOpt state = (extractFeatures state).map some ∧
    (state.ballsBowled = 0 → (extractFeatures state).getD 2 0 = 0) := by
  constructor
  · have hw1 : state.wicketsDown + 1 ≠ 0 := by linarith
    simp only [extractFeaturesOpt, extractFeatures, List.map_cons, List.map_nil,
      List.cons.injEq, and_true, true_and]
    refine ⟨?_, ?_, ?_⟩
    · by_cases hbb : state.ballsBowled > 0
      · simp [hbb, jsDiv, ne_of_gt hbb]
      · simp [hbb]
    · simp [jsDiv, hw1]
    · cases htarget : state.target with
      | none => rfl
      | some t =>
          by_cases hcond : state.isChasing ∧ t ≠ 0 ∧ state.ballsRemaining > 0
          · simp [hcond, jsDiv, ne_of_gt hcond.2.2]
          · simp [hcond]
  · intro h0
    have hnot : ¬ state.ballsBowled > 0 := by rw [h0]; exact lt_irrefl 0
    simp [extractFeatures, hnot]

theorem extractFeatures_total_finite_witness :
    extractFeaturesOpt innings2State = (extractFeatures innings2State).map some ∧
    (innings2State.ballsBowled = 0 → (extractFeatures innings2State).getD 2 0 = 0) :=
  extractFeatures_total_finite innings2State (by norm_num [innings2State])

/-- C3 (code evaluation): `loadModel` performs no shape validation.  The
malformed artifact — 8 feature names but only 3 means and 3 stds — is
returned untouched by a successful load, and standardizing an 8-entry
feature vector against it produces a non-finite (`none`, i.e. NaN) entry
where JavaScript indexes past the end of the means array, instead of any
load-time error. -/
theorem loadModel_accepts_malformed :
    loadModel true malformedModel = Except.ok malformedModel ∧
    malformedModel.featureNames.length = 8 ∧
    malformedModel.featureMeans.length = 3 ∧
    malformedModel.featureStds.length = 3 ∧
    (standardizeOpt (extractFeatures innings2State) malformedModel.featureMeans
        malformedModel.featureStds).getD 3 (some 0) = none := by
  refine ⟨rfl, rfl, rfl, rfl, ?_⟩
  have h3 : (3 : ℕ) < (extractFeatures innings2State).length := by
    rw [extractFeatures_length]; norm_num
  simp only [standardizeOpt]
  rw [getD_mapIdx _ _ 3 h3 (some 0) 0]
  simp [malformedModel]

/-- C6 (counterexample): the claim lays the vector out as the five scorecard
features (with the team-A-won-toss flag, a 0/1 value, at index 4) extended by
team ratings and a home flag; but on the concrete state `innings2State` the
code's entry 4 is `ballsRemaining = 300`, which is neither 0 nor 1, so the
produced vector is not the claimed scorecard/team-aware layout. -/
theorem extractFeatures_not_claimed_layout :
    (extractFeatures innings2State).getD 4 0 = 300 ∧
    ¬ ((extractFeatures innings2State).getD 4 0 = 0 ∨
       (extractFeatures innings2State).getD 4 0 = 1) := by
  have h : (extractFeatures innings2State).getD 4 0 = 300 := by
    simp [extractFeatures, innings2State]
  refine ⟨h, ?_⟩
  rw [h]
  norm_num

/-- C6 (amended): the feature vector fed to the classifier has exactly 8
entries, in order: innings number, wickets down in the current innings,
current run rate (0 when no balls bowled), lead, balls remaining, runs per
wicket, chasing flag, required run rate. -/
theorem extractFeatures_layout (state : GameState) :
    (extractFeatures state).length = 8 ∧
    (extractFeatures state).getD 0 0 = (state.innings : ℝ) ∧
    (extractFeatures state).getD 1 0 = state.wicketsDown ∧
    (state.ballsBowled > 0 →
      (extractFeatures state).getD 2 0 = state.runsFor / state.ballsBowled * 6) ∧
    (¬ state.ballsBowled > 0 → (extractFeatures state).getD 2 0 = 0) ∧
    (extractFeatures state).getD 3 0 = state.lead ∧
    (extractFeatures state).getD 4 0 = state.ballsRemaining ∧
    (extractFeatures state).getD 5 0 = state.runsFor / (state.wicketsDown + 1) ∧
    (state.isChasing = true → (extractFeatures state).getD 6 0 = 1) ∧
    (state.isChasing = false → (extractFeatures state).getD 6 0 = 0) := by
  refine ⟨extractFeatures_length state, ?_, ?_, ?_, ?_, ?_, ?_, ?_, ?_, ?_⟩
  · simp [extractFeatures]
  · simp [extractFeatures]
  · intro hbb; simp [extractFeatures, hbb]
  · intro hbb; simp [extractFeatures, hbb]
  · simp [extractFeatures]
  · simp [extractFeatures]
  · simp [extractFeatures]
  · intro hch; simp [extractFeatures, hch]
  · intro hch; simp [extractFeatures, hch]

theorem extractFeatures_layout_witness :
    (extractFeatures chaseState).getD 2 0 =
        chaseState.runsFor / chaseState.ballsBowled * 6 ∧
      (extractFeatures chaseState).getD 6 0 = 1 :=
  ⟨(extractFeatures_layout chaseState).2.2.2.1 (by norm_num [chaseState]),
   (extractFeatures_layout chaseState).2.2.2.2.2.2.2.2.1 rfl⟩

/-- C7 (modelled from the spec; the Hybrid Selector lives in the Python
training package, which is not among the sources): the selector routes a
state to the Monte Carlo simulator iff innings = 4 AND (wickets remaining
≤ 3 OR runs required ≤ 80) AND overs remaining > 30, and for every other
state the classifier output is used. -/
theorem hybridSelector_trigger (i w : ℕ) (r o : ℚ) :
    (useMonteCarlo i w r o = true ↔ (i = 4 ∧ (w ≤ 3 ∨ r ≤ 80) ∧ 30 < o)) ∧
    (∀ pC pS : ℝ × ℝ × ℝ,
      useMonteCarlo i w r o = true → hybridSelect i w r o pC pS = pS) ∧
    (∀ pC pS : ℝ × ℝ × ℝ,
      useMonteCarlo i w r o = false → hybridSelect i w r o pC pS = pC) := by
  refine ⟨?_, ?_, ?_⟩
  · simp [useMonteCarlo, and_assoc]
  · intro pC pS h
    simp [hybridSelect, h]
  · intro pC pS h
    simp [hybridSelect, h]

theorem hybridSelector_trigger_witness :
    useMonteCarlo 4 20 65 110 = true ∧
      hybridSelect 2 5 100 200 ((0 : ℝ), (0 : ℝ), (0 : ℝ)) (1, 0, 0) = (0, 0, 0) := by
  constructor
  · exact (hybridSelector_trigger 4 20 65 110).1.mpr
      ⟨rfl, Or.inr (by norm_num), by norm_num⟩
  · refine (hybridSelector_trigger 2 5 100 200).2.2 (0, 0, 0) (1, 0, 0) ?_
    have : ¬ ((2 : ℕ) = 4 ∧ ((5 : ℕ) ≤ 3 ∨ (100 : ℚ) ≤ 80) ∧ (30 : ℚ) < 200) := by
      rintro ⟨h4, -, -⟩
      norm_num at h4
    rcases hval : useMonteCarlo 2 5 100 200 with _ | _
    · rfl
    · exact absurd ((hybridSelector_trigger 2 5 100 200).1.mp hval) this

end WicketWorm
